import Mathlib

/-!
Shallow embedding of the streaming chat-completion client in
crates/ai/src/ai.rs, together with proofs of the specified properties.

Documents and message payloads are modelled as lists of characters; the
buffer edits performed by the code become pure functions on those lists.
-/

/-! ### Message model (ai.rs lines 17-81) -/

inductive Role where
  | user
  | assistant
  | system
deriving DecidableEq, Repr

structure RequestMessage where
  role : Role
  content : List Char
deriving DecidableEq, Repr

structure OpenAIRequest where
  model : List Char
  messages : List RequestMessage
  stream : Bool
deriving DecidableEq, Repr

structure ResponseMessage where
  role : Option Role
  content : Option (List Char)
deriving DecidableEq, Repr

structure ChatChoiceDelta where
  index : Nat
  delta : ResponseMessage
  finish_reason : Option (List Char)
deriving DecidableEq, Repr

structure Usage where
  prompt_tokens : Nat
  completion_tokens : Nat
  total_tokens : Nat
deriving DecidableEq, Repr

structure OpenAIResponseStreamEvent where
  id : Option (List Char)
  object : List Char
  created : Nat
  model : List Char
  choices : List ChatChoiceDelta
  usage : Option Usage
deriving DecidableEq, Repr

/-! ### Selection framing (ai.rs lines 128-157) -/

/-- The left sentinel marker pushed before each selection. -/
def lMark : List Char := ['-', '>', '-', '>']

/-- The right sentinel marker pushed after each selection. -/
def rMark : List Char := ['<', '-', '<', '-']

/-- Embedding of the snapshot text_for_range operation on character offsets. -/
def textForRange (doc : List Char) (a b : Nat) : List Char :=
  (doc.take b).drop a

/-- The framing loop of assist: starting at a buffer offset, wrap every
selection of the remaining list in the sentinel markers and append the
trailing text. -/
def userMessageFrom (doc : List Char) : Nat → List (Nat × Nat) → List Char
  | off, [] => doc.drop off
  | off, (s, e) :: rest =>
      textForRange doc off s ++ lMark ++ textForRange doc s e ++ rMark ++
        userMessageFrom doc e rest

/-- The full user message built by assist from the document and the ordered
selection ranges. -/
def user_message (doc : List Char) (selections : List (Nat × Nat)) : List Char :=
  userMessageFrom doc 0 selections

/-- Well-formed selection list: ordered, non-overlapping, within bounds,
starting no earlier than the given offset. -/
def selsOk : Nat → Nat → List (Nat × Nat) → Bool
  | _, _, [] => true
  | off, len, (s, e) :: rest =>
      decide (off ≤ s) && decide (s ≤ e) && decide (e ≤ len) && selsOk e len rest

/-! ### Trailing-newline normalization (ai.rs lines 145-154) -/

/-- Count of trailing newline characters, capped at 4: the code walks the
reversed characters from the end, takes while they are newlines, then takes
at most 4 and counts. -/
def trailingNewlineCount (doc : List Char) : Nat :=
  (((doc.reverse.takeWhile (fun c => c == '\n')).take 4)).length

/-- Uncapped run of trailing newline characters, used to state the spec. -/
def trailingRun (doc : List Char) : Nat :=
  (doc.reverse.takeWhile (fun c => c == '\n')).length

/-- The newline-normalization edit: append a suffix of newlines bringing the
capped trailing count up to 4 (the edit replaces the empty range at the end
of the buffer, i.e. appends). -/
def normalizeTail (doc : List Char) : List Char :=
  doc ++ List.replicate (4 - trailingNewlineCount doc) '\n'

/-- The insertion anchor offset: computed at length - 2 of the fresh
post-normalization snapshot. -/
def insertionSite (doc : List Char) : Nat :=
  (normalizeTail doc).length - 2

/-! ### Removal of sentinel marker occurrences -/

/-- Remove every occurrence of the four-character pattern a b c d from a
list, scanning left to right over non-overlapping matches (the semantics of
replacing every occurrence by the empty string). -/
def removeAll (a b c d : Char) : List Char → List Char
  | x :: y :: z :: w :: rest =>
      if x = a ∧ y = b ∧ z = c ∧ w = d then removeAll a b c d rest
      else x :: removeAll a b c d (y :: z :: w :: rest)
  | l => l

/-- A document with no angle-bracket characters; such a document can contain
neither sentinel marker nor any fragment that overlaps one. -/
def noAngle (l : List Char) : Prop := ∀ c ∈ l, c ≠ '<' ∧ c ≠ '>'

instance noAngleDecidable (l : List Char) : Decidable (noAngle l) :=
  List.decidableBAll (fun c => c ≠ '<' ∧ c ≠ '>') l

/-! ### The built-in system prompt (ai.rs lines 94-126) -/

/-- The fixed system message of assist (after indoc dedenting; the quotes
around model mention are escaped with literal backslashes in the source's
raw string, so the backslashes are part of the text). -/
def SYSTEM_MESSAGE : String :=
  "You an AI language model embedded in a code editor named Zed, authored by Zed Industries.\nThe input you are currently processing was produced by a special \\\"model mention\\\" in a document that is open in the editor.\nA model mention is indicated via a leading / on a line.\nThe user\x27s currently selected text is indicated via ->->selected text<-<- surrounding selected text.\nIn this sentence, the word ->->example<-<- is selected.\nRespond to any selected model mention.\nWrap your responses in > < as follows.\n>\nI think that\x27s a great idea.\n<\nIf you\x27re responding to a distant mention or multiple mentions, provide context.\n> Key ideas of generative programming.\n* Managing context\n    * Managing length\n    * Context distillation\n        - Shrink a context\x27s size without loss of meaning.\n* Fine-grained version control\n    * Portals to other contexts\n        * Distillation policies\n        * Budgets\n<\n\n> Expand on the idea of context distillation.\nIt\x27s important to stay below the model\x27s context size when generative programming.\nA key technique in doing so is called context distillation... [up to 1 paragraph].\n\nQuestions to consider:\n-\n-\n- [Up to 3 questions]\n<\n"

/-! ### Wire-format decoding (ai.rs lines 215-236) -/

/-- The literal frame marker checked by parse_line. -/
def dataMarker : List Char := "data: ".toList

/-- Embedding of Result transpose as used on the result of parse_line. -/
def exceptTranspose {ε α : Type} : Except ε (Option α) → Option (Except ε α)
  | .ok none => none
  | .ok (some a) => some (.ok a)
  | .error e => some (.error e)

/-- parse_line: propagate a line read error; otherwise strip the "data: "
marker if present and decode the remainder (propagating a decode failure);
lines without the marker produce none. The JSON deserializer is an external
collaborator and is passed in as a function. -/
def parse_line (decode : List Char → Except Unit OpenAIResponseStreamEvent)
    (line : Except Unit (List Char)) :
    Except Unit (Option OpenAIResponseStreamEvent) :=
  match line with
  | .error e => .error e
  | .ok l =>
      if dataMarker <+: l then
        match decode (l.drop dataMarker.length) with
        | .ok event => .ok (some event)
        | .error e => .error e
      else .ok none

/-- The decoder loop: parse each line, transpose the result, and push every
produced item (decoded event or error) onto the unbounded channel, in
arrival order. -/
def producerItems (decode : List Char → Except Unit OpenAIResponseStreamEvent)
    (lines : List (Except Unit (List Char))) :
    List (Except Unit OpenAIResponseStreamEvent) :=
  lines.filterMap (fun line => exceptTranspose (parse_line decode line))

/-- Line splitting of the response body, with the semantics of the
asynchronous buffered lines reader the code delegates to (std-compatible):
split on newline characters, strip one carriage return before each newline,
and emit a non-empty partial segment after the last newline as a final
line. The accumulator holds the current line reversed. -/
def splitLinesAux (acc : List Char) : List Char → List (List Char)
  | [] => if acc.isEmpty then [] else [acc.reverse]
  | c :: rest =>
      if c = '\n' then
        (match acc with
          | '\r' :: acc' => acc'.reverse
          | _ => acc.reverse) :: splitLinesAux [] rest
      else splitLinesAux (c :: acc) rest

/-- All lines of a response body. -/
def splitLines (body : List Char) : List (List Char) :=
  splitLinesAux [] body

/-! ### Insertion sink (ai.rs lines 178-191) -/

/-- The live buffer together with the insertion anchor offset. The anchor
was created with anchor_after, so it re-resolves to the right of text
inserted at its own position: each streamed chunk lands after the previous
one. -/
structure BufferState where
  text : List Char
  anchor : Nat
deriving DecidableEq, Repr

/-- Insert text at the anchor; the anchor advances past the inserted text. -/
def insertAtAnchor (st : BufferState) (t : List Char) : BufferState :=
  { text := st.text.take st.anchor ++ t ++ st.text.drop st.anchor,
    anchor := st.anchor + t.length }

/-- One iteration of the consumer loop body: pop the last choice, if any; if
its delta has text content, insert it at the anchor; otherwise leave the
buffer untouched. -/
def applyEvent (st : BufferState) (message : OpenAIResponseStreamEvent) :
    BufferState :=
  match message.choices.getLast? with
  | some choice =>
      match choice.delta.content with
      | some text => insertAtAnchor st text
      | none => st
  | none => st

/-- The consumer loop over the channel items: ok events are applied in
order; the first error item makes the question-mark operator return from the
task, aborting the loop but keeping the edits made so far. The boolean
records whether the loop was aborted by an error item. -/
def consume (st : BufferState) :
    List (Except Unit OpenAIResponseStreamEvent) → BufferState × Bool
  | [] => (st, false)
  | .error _ :: _ => (st, true)
  | .ok message :: rest => consume (applyEvent st message) rest

/-- The events whose loop iteration actually runs, in order: every ok item
before the first error item. -/
def appliedEvents :
    List (Except Unit OpenAIResponseStreamEvent) → List OpenAIResponseStreamEvent
  | [] => []
  | .error _ :: _ => []
  | .ok message :: rest => message :: appliedEvents rest

/-! ### Transport initiation (ai.rs lines 159-176 and 194-249) -/

/-- An HTTP response as seen by stream_completion: a status code and the
body text. -/
structure HttpResponse where
  status : Nat
  body : List Char

/-- stream_completion: force the stream flag to true, transmit, and branch
on the status code. On 200 the body lines are decoded into the ordered
channel items; on any other status the call fails with an error carrying the
status code and the fully drained body text, and the body is never decoded
as an event stream. The first component is the request as serialized and
transmitted. -/
def stream_completion (decode : List Char → Except Unit OpenAIResponseStreamEvent)
    (request : OpenAIRequest) (response : HttpResponse) :
    OpenAIRequest ×
      Except (Nat × List Char) (List (Except Unit OpenAIResponseStreamEvent)) :=
  let request := { request with stream := true }
  (request,
    if response.status = 200 then
      .ok (producerItems decode ((splitLines response.body).map Except.ok))
    else
      .error (response.status, response.body))

/-- The request constructed by the assist command (ai.rs lines 162-175):
model gpt-4, the system message, the framed user message, stream false. -/
def assistRequest (user_msg : List Char) : OpenAIRequest :=
  { model := "gpt-4".toList,
    messages := [
      { role := Role.system, content := SYSTEM_MESSAGE.toList },
      { role := Role.user, content := user_msg }],
    stream := false }

/-- The final buffer state of one assist invocation against the given wire
response: a failed await of stream_completion leaves the buffer untouched;
otherwise the consumer loop drains the channel items. -/
def assistBuffer (decode : List Char → Except Unit OpenAIResponseStreamEvent)
    (request : OpenAIRequest) (response : HttpResponse) (st : BufferState) :
    BufferState :=
  match (stream_completion decode request response).2 with
  | .error _ => st
  | .ok items => (consume st items).1

/-! ### Proofs -/

/-! ### Helper lemmas about the trailing-newline run -/

theorem takeWhile_replicate_append (p : Char → Bool) (a : Char) (ha : p a = true)
    (k : Nat) (l : List Char) :
    (List.replicate k a ++ l).takeWhile p = List.replicate k a ++ l.takeWhile p := by
  induction k with
  | zero => simp
  | succ k ih => simp [List.replicate_succ, List.takeWhile_cons, ha, ih]

theorem trailingNewlineCount_eq_min (doc : List Char) :
    trailingNewlineCount doc = min (trailingRun doc) 4 := by
  simp [trailingNewlineCount, trailingRun, List.length_take, Nat.min_comm]

theorem trailingRun_normalizeTail (doc : List Char) :
    trailingRun (normalizeTail doc) =
      trailingRun doc + (4 - trailingNewlineCount doc) := by
  unfold trailingRun normalizeTail
  rw [List.reverse_append, List.reverse_replicate,
    takeWhile_replicate_append _ _ (by decide)]
  simp [Nat.add_comm]

theorem length_takeWhile_le_length (p : Char → Bool) (l : List Char) :
    (l.takeWhile p).length ≤ l.length := by
  induction l with
  | nil => simp
  | cons c rest ih =>
    by_cases h : p c = true
    · simpa [List.takeWhile_cons, h] using Nat.succ_le_succ ih
    · simp [List.takeWhile_cons, h]

theorem trailingRun_le_length (doc : List Char) : trailingRun doc ≤ doc.length := by
  have h := length_takeWhile_le_length (fun c => c == '\n') doc.reverse
  simpa [trailingRun] using h

/-- Claim C2: the trailing-newline normalization brings a document ending in
0 to 4 trailing newlines to exactly 4 trailing newlines by appending exactly
4 - k newlines; a document ending in 4 or more trailing newlines is left
unchanged; and the normalization only ever appends (the original document is
a prefix of the result), never truncates. -/
theorem assist_trailing_newlines (doc : List Char) :
    (trailingRun doc ≤ 4 →
      trailingRun (normalizeTail doc) = 4 ∧
      (normalizeTail doc).length = doc.length + (4 - trailingRun doc)) ∧
    (4 ≤ trailingRun doc → normalizeTail doc = doc) ∧
    doc <+: normalizeTail doc := by
  refine ⟨?_, ?_, ?_⟩
  · intro h
    have hc : trailingNewlineCount doc = trailingRun doc := by
      rw [trailingNewlineCount_eq_min]; omega
    constructor
    · rw [trailingRun_normalizeTail, hc]; omega
    · simp [normalizeTail, hc]
  · intro h
    have hc : trailingNewlineCount doc = 4 := by
      rw [trailingNewlineCount_eq_min]; omega
    simp [normalizeTail, hc]
  · exact ⟨List.replicate (4 - trailingNewlineCount doc) '\n', rfl⟩

/-- Witness for C2: a document ending in two trailing newlines is extended to
exactly four, by appending two characters. -/
theorem assist_trailing_newlines_witness :
    trailingRun "ab\n\n".toList ≤ 4 ∧
    trailingRun (normalizeTail "ab\n\n".toList) = 4 ∧
    (normalizeTail "ab\n\n".toList).length = "ab\n\n".toList.length + 2 :=
  ⟨by decide, ((assist_trailing_newlines "ab\n\n".toList).1 (by decide)).1,
    ((assist_trailing_newlines "ab\n\n".toList).1 (by decide)).2⟩

/-- Claim C3: after the trailing-newline normalization the document length is
at least 4, so the insertion anchor offset length - 2 is an exact subtraction
(site + 2 recovers the length) and lies strictly before the document's end. -/
theorem assist_insertion_site (doc : List Char) :
    4 ≤ (normalizeTail doc).length ∧
    insertionSite doc + 2 = (normalizeTail doc).length ∧
    insertionSite doc < (normalizeTail doc).length := by
  have h4 : 4 ≤ (normalizeTail doc).length := by
    have hmin := trailingNewlineCount_eq_min doc
    have hle := trailingRun_le_length doc
    have : (normalizeTail doc).length
        = doc.length + (4 - trailingNewlineCount doc) := by
      simp [normalizeTail]
    omega
  refine ⟨h4, ?_, ?_⟩ <;> unfold insertionSite <;> omega

theorem removeAll_head (a b c d : Char) (rest : List Char) :
    removeAll a b c d (a :: b :: c :: d :: rest) = removeAll a b c d rest := by
  simp [removeAll]

theorem removeAll_cons_fst (a b c d x : Char) (t : List Char) (hx : x ≠ a) :
    removeAll a b c d (x :: t) = x :: removeAll a b c d t := by
  cases t with
  | nil => simp [removeAll]
  | cons y t' =>
    cases t' with
    | nil => simp [removeAll]
    | cons z t'' =>
      cases t'' with
      | nil => simp [removeAll]
      | cons w rest =>
        have hc : ¬(x = a ∧ y = b ∧ z = c ∧ w = d) := fun hc => hx hc.1
        simp [removeAll, hc]

theorem removeAll_cons_snd (a b c d x y : Char) (t : List Char) (hy : y ≠ b) :
    removeAll a b c d (x :: y :: t) = x :: removeAll a b c d (y :: t) := by
  cases t with
  | nil => simp [removeAll]
  | cons z t' =>
    cases t' with
    | nil => simp [removeAll]
    | cons w rest =>
      have hc : ¬(x = a ∧ y = b ∧ z = c ∧ w = d) := fun hc => hy hc.2.1
      simp [removeAll, hc]

theorem removeAll_lMark_clean (u : List Char) (hu : noAngle u) :
    removeAll '-' '>' '-' '>' u = u := by
  induction u with
  | nil => rfl
  | cons x t ih =>
    have ht : noAngle t := fun c hc => hu c (List.mem_cons_of_mem _ hc)
    cases t with
    | nil => simp [removeAll]
    | cons y t' =>
      have hy : y ≠ '>' := (hu y (by simp)).2
      rw [removeAll_cons_snd '-' '>' '-' '>' x y t' hy, ih ht]

theorem removeAll_rMark_clean (u : List Char) (hu : noAngle u) :
    removeAll '<' '-' '<' '-' u = u := by
  induction u with
  | nil => rfl
  | cons x t ih =>
    have hx : x ≠ '<' := (hu x (by simp)).1
    rw [removeAll_cons_fst '<' '-' '<' '-' x t hx,
      ih (fun c hc => hu c (List.mem_cons_of_mem _ hc))]

theorem removeAll_lMark_append (v : List Char) :
    ∀ u : List Char, noAngle u →
      removeAll '-' '>' '-' '>' (u ++ (lMark ++ v)) =
        u ++ removeAll '-' '>' '-' '>' v := by
  intro u
  induction u with
  | nil => intro _; simpa [lMark] using removeAll_head '-' '>' '-' '>' v
  | cons x u' ih =>
    intro hu
    have ht : noAngle u' := fun c hc => hu c (List.mem_cons_of_mem _ hc)
    have hstep : removeAll '-' '>' '-' '>' (x :: (u' ++ (lMark ++ v)))
        = x :: removeAll '-' '>' '-' '>' (u' ++ (lMark ++ v)) := by
      cases u' with
      | nil =>
        exact removeAll_cons_snd '-' '>' '-' '>' x '-' ('>' :: '-' :: '>' :: v)
          (by decide)
      | cons y u'' =>
        exact removeAll_cons_snd '-' '>' '-' '>' x y (u'' ++ (lMark ++ v))
          ((hu y (by simp)).2)
    rw [List.cons_append, hstep, ih ht]
    rfl

theorem removeAll_lMark_over_rMark (v : List Char)
    (hv : ∀ c, v.head? = some c → c ≠ '>') :
    ∀ u : List Char, noAngle u →
      removeAll '-' '>' '-' '>' (u ++ (rMark ++ v)) =
        u ++ (rMark ++ removeAll '-' '>' '-' '>' v) := by
  intro u
  induction u with
  | nil =>
    intro _
    show removeAll '-' '>' '-' '>' ('<' :: '-' :: '<' :: '-' :: v)
      = '<' :: '-' :: '<' :: '-' :: removeAll '-' '>' '-' '>' v
    rw [removeAll_cons_fst '-' '>' '-' '>' '<' ('-' :: '<' :: '-' :: v) (by decide)]
    rw [removeAll_cons_snd '-' '>' '-' '>' '-' '<' ('-' :: v) (by decide)]
    rw [removeAll_cons_fst '-' '>' '-' '>' '<' ('-' :: v) (by decide)]
    simp only [List.cons.injEq, true_and]
    cases v with
    | nil => simp [removeAll]
    | cons c v' =>
      exact removeAll_cons_snd '-' '>' '-' '>' '-' c v' (hv c rfl)
  | cons x u' ih =>
    intro hu
    have ht : noAngle u' := fun c hc => hu c (List.mem_cons_of_mem _ hc)
    have hstep : removeAll '-' '>' '-' '>' (x :: (u' ++ (rMark ++ v)))
        = x :: removeAll '-' '>' '-' '>' (u' ++ (rMark ++ v)) := by
      cases u' with
      | nil =>
        exact removeAll_cons_snd '-' '>' '-' '>' x '<' ('-' :: '<' :: '-' :: v)
          (by decide)
      | cons y u'' =>
        exact removeAll_cons_snd '-' '>' '-' '>' x y (u'' ++ (rMark ++ v))
          ((hu y (by simp)).2)
    rw [List.cons_append, hstep, ih ht]
    rfl

theorem removeAll_rMark_append (v : List Char) :
    ∀ u : List Char, noAngle u →
      removeAll '<' '-' '<' '-' (u ++ (rMark ++ v)) =
        u ++ removeAll '<' '-' '<' '-' v := by
  intro u
  induction u with
  | nil => intro _; simpa [rMark] using removeAll_head '<' '-' '<' '-' v
  | cons x u' ih =>
    intro hu
    have hx : x ≠ '<' := (hu x (by simp)).1
    rw [List.cons_append,
      removeAll_cons_fst '<' '-' '<' '-' x (u' ++ (rMark ++ v)) hx,
      ih (fun c hc => hu c (List.mem_cons_of_mem _ hc))]
    rfl

theorem noAngle_textForRange (doc : List Char) (h : noAngle doc) (a b : Nat) :
    noAngle (textForRange doc a b) := fun c hc =>
  h c (((List.drop_sublist a (doc.take b)).trans (List.take_sublist b doc)).subset hc)

theorem noAngle_drop (doc : List Char) (h : noAngle doc) (a : Nat) :
    noAngle (doc.drop a) := fun c hc => h c ((List.drop_sublist a doc).subset hc)

theorem noAngle_append (u v : List Char) (hu : noAngle u) (hv : noAngle v) :
    noAngle (u ++ v) := by
  intro c hc
  rcases List.mem_append.1 hc with h | h
  · exact hu c h
  · exact hv c h

theorem userMessageFrom_head_ne (doc : List Char) (hdoc : noAngle doc)
    (off : Nat) (sels : List (Nat × Nat)) :
    ∀ c, (userMessageFrom doc off sels).head? = some c → c ≠ '>' := by
  cases sels with
  | nil =>
    intro c hc
    cases hd : doc.drop off with
    | nil => rw [show userMessageFrom doc off [] = doc.drop off from rfl, hd] at hc; cases hc
    | cons d rest =>
      rw [show userMessageFrom doc off [] = doc.drop off from rfl, hd] at hc
      have hdmem : d ∈ doc := (List.drop_sublist off doc).subset (hd ▸ List.mem_cons_self d rest)
      have := (hdoc d hdmem).2
      simp only [List.head?_cons, Option.some.injEq] at hc
      exact hc ▸ this
  | cons se rest =>
    obtain ⟨s, e⟩ := se
    intro c hc
    rw [show userMessageFrom doc off ((s, e) :: rest)
        = textForRange doc off s ++ lMark ++ textForRange doc s e ++ rMark ++
          userMessageFrom doc e rest from rfl] at hc
    cases ht : textForRange doc off s with
    | nil =>
      rw [ht] at hc
      simp [lMark] at hc
      exact hc ▸ (by decide)
    | cons d t' =>
      rw [ht] at hc
      have hdmem : d ∈ textForRange doc off s := ht ▸ List.mem_cons_self d t'
      have := (noAngle_textForRange doc hdoc off s d hdmem).2
      simp only [List.cons_append, List.head?_cons, Option.some.injEq] at hc
      exact hc ▸ this

theorem drop_append_of_le (l₁ l₂ : List Char) (n : Nat) (h : n ≤ l₁.length) :
    (l₁ ++ l₂).drop n = l₁.drop n ++ l₂ := by
  induction l₁ generalizing n with
  | nil =>
    have : n = 0 := by simpa using h
    simp [this]
  | cons x t ih =>
    cases n with
    | zero => simp
    | succ m => simpa using ih m (Nat.le_of_succ_le_succ h)

theorem drop_eq_textForRange_append (doc : List Char) (a b : Nat)
    (hab : a ≤ b) (hb : b ≤ doc.length) :
    doc.drop a = textForRange doc a b ++ doc.drop b := by
  have hlen : a ≤ (doc.take b).length := by
    rw [List.length_take]; omega
  conv_lhs => rw [← List.take_append_drop b doc]
  rw [drop_append_of_le (doc.take b) (doc.drop b) a hlen]
  rfl

theorem removeAll_userMessageFrom (doc : List Char) (hdoc : noAngle doc) :
    ∀ (sels : List (Nat × Nat)) (off : Nat),
      selsOk off doc.length sels = true →
      removeAll '<' '-' '<' '-'
        (removeAll '-' '>' '-' '>' (userMessageFrom doc off sels)) = doc.drop off := by
  intro sels
  induction sels with
  | nil =>
    intro off _
    have hcd : noAngle (doc.drop off) := noAngle_drop doc hdoc off
    rw [show userMessageFrom doc off [] = doc.drop off from rfl,
      removeAll_lMark_clean _ hcd, removeAll_rMark_clean _ hcd]
  | cons se rest ih =>
    obtain ⟨s, e⟩ := se
    intro off hok
    simp only [selsOk, Bool.and_eq_true, decide_eq_true_eq] at hok
    obtain ⟨⟨⟨h1, h2⟩, h3⟩, h4⟩ := hok
    have ht1 : noAngle (textForRange doc off s) := noAngle_textForRange doc hdoc off s
    have ht2 : noAngle (textForRange doc s e) := noAngle_textForRange doc hdoc s e
    have hv := userMessageFrom_head_ne doc hdoc e rest
    rw [show userMessageFrom doc off ((s, e) :: rest)
        = textForRange doc off s ++ lMark ++ textForRange doc s e ++ rMark ++
          userMessageFrom doc e rest from rfl]
    rw [show textForRange doc off s ++ lMark ++ textForRange doc s e ++ rMark ++
          userMessageFrom doc e rest
        = textForRange doc off s ++ (lMark ++ (textForRange doc s e ++ (rMark ++
          userMessageFrom doc e rest))) by simp [List.append_assoc]]
    rw [removeAll_lMark_append _ _ ht1]
    rw [removeAll_lMark_over_rMark _ hv _ ht2]
    rw [show textForRange doc off s ++ (textForRange doc s e ++ (rMark ++
          removeAll '-' '>' '-' '>' (userMessageFrom doc e rest)))
        = (textForRange doc off s ++ textForRange doc s e) ++ (rMark ++
          removeAll '-' '>' '-' '>' (userMessageFrom doc e rest)) by
        simp [List.append_assoc]]
    rw [removeAll_rMark_append _ _ (noAngle_append _ _ ht1 ht2)]
    rw [ih e h4]
    rw [List.append_assoc, ← drop_eq_textForRange_append doc s e h2 h3,
      ← drop_eq_textForRange_append doc off s h1 (le_trans h2 h3)]

/-- Claim C1 (amended): for a document containing no angle-bracket character
(hence no sentinel marker and no fragment overlapping one) and any ordered
list of non-overlapping in-bounds selections, removing all occurrences of the
left marker and then all occurrences of the right marker from the framed
prompt yields exactly the original document; with zero selections the prompt
equals the document unconditionally and, for such documents, contains no
sentinel marker. -/
theorem assist_prompt_strips_to_document (doc : List Char) (sels : List (Nat × Nat))
    (hdoc : noAngle doc) (hok : selsOk 0 doc.length sels = true) :
    removeAll '<' '-' '<' '-'
      (removeAll '-' '>' '-' '>' (user_message doc sels)) = doc ∧
    user_message doc [] = doc ∧
    ¬ lMark <:+: user_message doc [] ∧
    ¬ rMark <:+: user_message doc [] := by
  have hzero : user_message doc [] = doc := by
    simp [user_message, userMessageFrom]
  refine ⟨?_, hzero, ?_, ?_⟩
  · have h := removeAll_userMessageFrom doc hdoc sels 0 hok
    simpa [user_message] using h
  · intro hinf
    have hmem : '>' ∈ doc := by
      have : '>' ∈ user_message doc [] := hinf.subset (by simp [lMark])
      rwa [hzero] at this
    exact (hdoc _ hmem).2 rfl
  · intro hinf
    have hmem : '<' ∈ doc := by
      have : '<' ∈ user_message doc [] := hinf.subset (by simp [rMark])
      rwa [hzero] at this
    exact (hdoc _ hmem).1 rfl

/-- Witness for C1 (amended): a concrete document and one selection. -/
theorem assist_prompt_strips_to_document_witness :
    removeAll '<' '-' '<' '-'
      (removeAll '-' '>' '-' '>' (user_message "ab cd".toList [(3, 5)])) =
      "ab cd".toList :=
  (assist_prompt_strips_to_document "ab cd".toList [(3, 5)]
    (by decide) (by decide)).1

/-- Counterexample to claim C1 as stated: for the document "->->", which
itself contains the left sentinel marker, and zero selections, the framed
prompt equals the document, yet removing all marker occurrences yields the
empty list rather than the document (and the prompt does contain a sentinel
marker, contradicting the zero-selection clause). -/
theorem assist_prompt_strips_counterexample :
    removeAll '<' '-' '<' '-'
      (removeAll '-' '>' '-' '>' (user_message "->->".toList [])) ≠
      "->->".toList := by
  decide

/-! ### Claims about the transport and the sink -/

/-- Claim C7: the request that is serialized and transmitted always has
stream = true, regardless of the caller's value; the assist command itself
constructs its request with stream = false and it is still transmitted as
true. -/
theorem stream_forced_true (decode : List Char → Except Unit OpenAIResponseStreamEvent)
    (response : HttpResponse) (request : OpenAIRequest) (user_msg : List Char) :
    (stream_completion decode request response).1.stream = true ∧
    (assistRequest user_msg).stream = false ∧
    (stream_completion decode (assistRequest user_msg) response).1.stream = true :=
  ⟨rfl, rfl, rfl⟩

/-- Claim C10: the transmitted request carries exactly two messages — first
the System message with the fixed built-in prompt, then the User message
with the framed prompt built from the document and selections — and the
model field is gpt-4. -/
theorem request_messages_shape
    (decode : List Char → Except Unit OpenAIResponseStreamEvent)
    (response : HttpResponse) (doc : List Char) (sels : List (Nat × Nat)) :
    (stream_completion decode (assistRequest (user_message doc sels)) response).1.messages
      = [{ role := Role.system, content := SYSTEM_MESSAGE.toList },
         { role := Role.user, content := user_message doc sels }] ∧
    (stream_completion decode (assistRequest (user_message doc sels)) response).1.model
      = "gpt-4".toList :=
  ⟨rfl, rfl⟩

/-- Claim C5: a response with a non-200 status makes stream_completion fail
with a single error carrying the status code and the full body text
verbatim; the body is never decoded as an event stream (no channel items
exist) and the assist invocation performs no document mutation. -/
theorem stream_completion_non200
    (decode : List Char → Except Unit OpenAIResponseStreamEvent)
    (request : OpenAIRequest) (response : HttpResponse) (st : BufferState)
    (h : response.status ≠ 200) :
    (stream_completion decode request response).2 =
      Except.error (response.status, response.body) ∧
    assistBuffer decode request response st = st := by
  constructor
  · simp [stream_completion, h]
  · simp [assistBuffer, stream_completion, h]

/-- Witness for C5: a 429 response with body "rate limited". -/
theorem stream_completion_non200_witness :
    (stream_completion (fun _ => Except.error ()) (assistRequest [])
        ⟨429, "rate limited".toList⟩).2 =
      Except.error (429, "rate limited".toList) ∧
    assistBuffer (fun _ => Except.error ()) (assistRequest [])
      ⟨429, "rate limited".toList⟩ ⟨"abcd".toList, 2⟩ = ⟨"abcd".toList, 2⟩ :=
  stream_completion_non200 (fun _ => Except.error ()) (assistRequest [])
    ⟨429, "rate limited".toList⟩ ⟨"abcd".toList, 2⟩ (by decide)

/-- Claim C6: only the last choice of an event's choice list is consulted:
whenever the choices are some prefix followed by a final choice, the buffer
update is determined by that final choice alone — its text content is
inserted at the anchor when present, and an absent content leaves the
buffer untouched — and in either case the consumer loop advances to the
remaining items. -/
theorem applyEvent_last_choice (st : BufferState)
    (message : OpenAIResponseStreamEvent) :
    (∀ pre choice, message.choices = pre ++ [choice] →
      applyEvent st message =
        match choice.delta.content with
        | some text => insertAtAnchor st text
        | none => st) ∧
    (∀ choice, message.choices.getLast? = some choice →
      choice.delta.content = none → applyEvent st message = st) ∧
    ∀ rest, consume st (Except.ok message :: rest) =
      consume (applyEvent st message) rest := by
  refine ⟨?_, ?_, fun rest => rfl⟩
  · intro pre choice hch
    unfold applyEvent
    rw [hch, List.getLast?_concat]
  · intro choice hch hnone
    unfold applyEvent
    rw [hch]
    simp [hnone]

/-- Witness for C6: for choices with indices 0 and 1 where only the final
choice carries content X, exactly X is inserted at the anchor; and a final
choice with absent content mutates nothing. -/
theorem applyEvent_last_choice_witness :
    applyEvent ⟨"wxyz".toList, 2⟩
      ⟨none, [], 0, [],
        [⟨0, ⟨some Role.assistant, some "ignored".toList⟩, none⟩,
         ⟨1, ⟨none, some "X".toList⟩, none⟩], none⟩ =
      insertAtAnchor ⟨"wxyz".toList, 2⟩ "X".toList ∧
    applyEvent ⟨"wxyz".toList, 2⟩
      ⟨none, [], 0, [], [⟨0, ⟨some Role.assistant, none⟩, none⟩], none⟩ =
      ⟨"wxyz".toList, 2⟩ :=
  ⟨(applyEvent_last_choice ⟨"wxyz".toList, 2⟩
      ⟨none, [], 0, [],
        [⟨0, ⟨some Role.assistant, some "ignored".toList⟩, none⟩,
         ⟨1, ⟨none, some "X".toList⟩, none⟩], none⟩).1
      [⟨0, ⟨some Role.assistant, some "ignored".toList⟩, none⟩]
      ⟨1, ⟨none, some "X".toList⟩, none⟩ rfl,
   ((applyEvent_last_choice ⟨"wxyz".toList, 2⟩
      ⟨none, [], 0, [], [⟨0, ⟨some Role.assistant, none⟩, none⟩], none⟩).2.1
      ⟨0, ⟨some Role.assistant, none⟩, none⟩ rfl rfl)⟩

/-- Claim C9: an event whose choices list is empty performs no document
mutation and cannot fail — the last choice is requested through the
Option-returning pop, never by indexing — and the consumer loop continues
with the remaining items. -/
theorem applyEvent_empty_choices (st : BufferState)
    (message : OpenAIResponseStreamEvent)
    (rest : List (Except Unit OpenAIResponseStreamEvent))
    (h : message.choices = []) :
    applyEvent st message = st ∧
    consume st (Except.ok message :: rest) = consume st rest := by
  have ha : applyEvent st message = st := by
    unfold applyEvent
    rw [h]
    rfl
  refine ⟨ha, ?_⟩
  rw [show consume st (Except.ok message :: rest) =
    consume (applyEvent st message) rest from rfl, ha]

/-- Witness for C9: a concrete role-only event with no choices. -/
theorem applyEvent_empty_choices_witness :
    applyEvent ⟨"wxyz".toList, 2⟩ ⟨none, [], 0, [], [], none⟩ =
      ⟨"wxyz".toList, 2⟩ ∧
    consume ⟨"wxyz".toList, 2⟩
      [Except.ok ⟨none, [], 0, [], [], none⟩] =
      consume ⟨"wxyz".toList, 2⟩ [] :=
  applyEvent_empty_choices ⟨"wxyz".toList, 2⟩ ⟨none, [], 0, [], [], none⟩ [] rfl

theorem parse_line_data (decode : List Char → Except Unit OpenAIResponseStreamEvent)
    (payload : List Char) :
    parse_line decode (Except.ok (dataMarker ++ payload)) =
      (decode payload).map some := by
  simp only [parse_line]
  rw [if_pos (List.prefix_append dataMarker payload), List.drop_left]
  cases decode payload <;> rfl

theorem parse_line_other (decode : List Char → Except Unit OpenAIResponseStreamEvent)
    (l : List Char) (h : ¬ dataMarker <+: l) :
    parse_line decode (Except.ok l) = Except.ok none := by
  simp only [parse_line]
  rw [if_neg h]

/-- Claim C4 (amended): for the wire stream consisting of a well-formed data
frame, a keep-alive line, a malformed data frame and a second well-formed
data frame, the decoder pushes the first decoded event, the decode error,
and the second decoded event onto the channel in that order (the keep-alive
line is skipped); the consumer applies the first event to the document, but
the malformed frame's error is received by the consumer and aborts its loop,
so the second decoded event never reaches the loop body and only one event
is applied. -/
theorem malformed_frame_aborts_consumer
    (decode : List Char → Except Unit OpenAIResponseStreamEvent)
    (a bad b : List Char) (e1 e2 : OpenAIResponseStreamEvent) (st : BufferState)
    (h1 : decode a = Except.ok e1) (h2 : decode bad = Except.error ())
    (h3 : decode b = Except.ok e2) :
    producerItems decode
        [Except.ok (dataMarker ++ a), Except.ok [':'],
         Except.ok (dataMarker ++ bad), Except.ok (dataMarker ++ b)] =
      [Except.ok e1, Except.error (), Except.ok e2] ∧
    appliedEvents [Except.ok e1, Except.error (), Except.ok e2] = [e1] ∧
    consume st [Except.ok e1, Except.error (), Except.ok e2] =
      (applyEvent st e1, true) := by
  refine ⟨?_, rfl, rfl⟩
  simp only [producerItems, List.filterMap_cons, List.filterMap_nil,
    parse_line_data, parse_line_other decode [':'] (by decide), h1, h2, h3]
  rfl

/-- Witness for C4 (amended): a concrete decoder, two concrete events and
the four-line wire stream; only the first event is applied and the consumer
aborts. -/
theorem malformed_frame_aborts_consumer_witness :
    consume ⟨"wxyz".toList, 2⟩
        [Except.ok ⟨none, [], 0, [], [⟨0, ⟨none, some "A".toList⟩, none⟩], none⟩,
         Except.error (),
         Except.ok ⟨none, [], 0, [], [⟨0, ⟨none, some "B".toList⟩, none⟩], none⟩] =
      (applyEvent ⟨"wxyz".toList, 2⟩
        ⟨none, [], 0, [], [⟨0, ⟨none, some "A".toList⟩, none⟩], none⟩, true) :=
  (malformed_frame_aborts_consumer
    (fun l =>
      if l = "1".toList then
        Except.ok ⟨none, [], 0, [], [⟨0, ⟨none, some "A".toList⟩, none⟩], none⟩
      else if l = "2".toList then
        Except.ok ⟨none, [], 0, [], [⟨0, ⟨none, some "B".toList⟩, none⟩], none⟩
      else Except.error ())
    "1".toList "x".toList "2".toList
    ⟨none, [], 0, [], [⟨0, ⟨none, some "A".toList⟩, none⟩], none⟩
    ⟨none, [], 0, [], [⟨0, ⟨none, some "B".toList⟩, none⟩], none⟩
    ⟨"wxyz".toList, 2⟩ rfl rfl rfl).2.2

/-- Counterexample to claim C4 as stated: with the four-line wire stream
(well-formed frame, keep-alive, malformed frame, well-formed frame) and a
concrete decoder, exactly one — not two — decoded event reaches the loop
body, and the consumer loop is aborted by the malformed frame's error. -/
theorem malformed_frame_counterexample :
    (appliedEvents (producerItems
      (fun l =>
        if l = "1".toList then
          Except.ok ⟨none, [], 0, [], [⟨0, ⟨none, some "A".toList⟩, none⟩], none⟩
        else if l = "2".toList then
          Except.ok ⟨none, [], 0, [], [⟨0, ⟨none, some "B".toList⟩, none⟩], none⟩
        else Except.error ())
      [Except.ok "data: 1".toList, Except.ok [':'],
       Except.ok "data: x".toList, Except.ok "data: 2".toList])).length = 1 ∧
    (consume ⟨[], 0⟩ (producerItems
      (fun l =>
        if l = "1".toList then
          Except.ok ⟨none, [], 0, [], [⟨0, ⟨none, some "A".toList⟩, none⟩], none⟩
        else if l = "2".toList then
          Except.ok ⟨none, [], 0, [], [⟨0, ⟨none, some "B".toList⟩, none⟩], none⟩
        else Except.error ())
      [Except.ok "data: 1".toList, Except.ok [':'],
       Except.ok "data: x".toList, Except.ok "data: 2".toList])).2 = true := by
  constructor <;> rfl

theorem splitLinesAux_cons_nl (acc rest : List Char) :
    splitLinesAux acc ('\n' :: rest) =
      (match acc with | '\r' :: acc' => acc'.reverse | _ => acc.reverse)
        :: splitLinesAux [] rest := by
  simp [splitLinesAux]

theorem splitLinesAux_cons_other (c : Char) (hc : ¬ c = '\n')
    (acc rest : List Char) :
    splitLinesAux acc (c :: rest) = splitLinesAux (c :: acc) rest := by
  simp [splitLinesAux, hc]

theorem splitLinesAux_no_newline :
    ∀ p : List Char, (∀ c ∈ p, c ≠ '\n') →
      ∀ acc : List Char, splitLinesAux acc p =
        if (acc.reverse ++ p).isEmpty then [] else [acc.reverse ++ p] := by
  intro p
  induction p with
  | nil =>
    intro _ acc
    cases acc with
    | nil => rfl
    | cons x t => simp [splitLinesAux]
  | cons c p' ih =>
    intro hnl acc
    have hc : ¬ c = '\n' := hnl c (by simp)
    rw [splitLinesAux_cons_other c hc acc p',
      ih (fun d hd => hnl d (by simp [hd])) (c :: acc)]
    simp [List.append_assoc]

theorem splitLines_append_partial :
    ∀ b acc p : List Char, p ≠ [] → (∀ c ∈ p, c ≠ '\n') →
      splitLinesAux acc (b ++ '\n' :: p) =
        splitLinesAux acc (b ++ ['\n']) ++ [p] := by
  intro b
  induction b with
  | nil =>
    intro acc p hp hnl
    have hsplit : splitLinesAux [] p = [p] := by
      rw [splitLinesAux_no_newline p hnl []]
      cases p with
      | nil => exact absurd rfl hp
      | cons c p' => simp
    simp only [List.nil_append, splitLinesAux_cons_nl, hsplit]
    rfl
  | cons x b' ih =>
    intro acc p hp hnl
    by_cases hx : x = '\n'
    · subst hx
      simp only [List.cons_append, splitLinesAux_cons_nl, ih [] p hp hnl]
    · simp only [List.cons_append, splitLinesAux_cons_other x hx,
        ih (x :: acc) p hp hnl]

/-- Claim C8 (amended): a response body ending in a partial line (non-empty
text after the last line terminator, with no terminating newline) has that
partial text emitted by the lines reader as a final frame — not dropped —
so it is decoded like every other line and can produce a decoded event or a
decode error. -/
theorem trailing_partial_line_emitted
    (decode : List Char → Except Unit OpenAIResponseStreamEvent)
    (b p : List Char) (hp : p ≠ []) (hnl : ∀ c ∈ p, c ≠ '\n') :
    splitLines (b ++ '\n' :: p) = splitLines (b ++ ['\n']) ++ [p] ∧
    producerItems decode ((splitLines (b ++ '\n' :: p)).map Except.ok) =
      producerItems decode ((splitLines (b ++ ['\n'])).map Except.ok) ++
        producerItems decode [Except.ok p] := by
  have h : splitLines (b ++ '\n' :: p) = splitLines (b ++ ['\n']) ++ [p] :=
    splitLines_append_partial b [] p hp hnl
  refine ⟨h, ?_⟩
  rw [h]
  simp [producerItems, List.filterMap_append]

/-- Witness for C8 (amended): a body of one full frame followed by a
partial frame without terminator; the partial frame is emitted whole. -/
theorem trailing_partial_line_emitted_witness :
    splitLines ("data: 1".toList ++ '\n' :: "data: 2".toList) =
      splitLines ("data: 1".toList ++ ['\n']) ++ ["data: 2".toList] :=
  (trailing_partial_line_emitted (fun _ => Except.error ()) "data: 1".toList
    "data: 2".toList (by decide) (by decide)).1

/-- Counterexample to claim C8 as stated: a body consisting of a single data
frame with no terminating newline is exactly a partial trailing line, yet it
is emitted as a frame and produces a decoded event at the sink. -/
theorem trailing_partial_line_counterexample :
    splitLines "data: A".toList = ["data: A".toList] ∧
    producerItems (fun _ => Except.ok ⟨none, [], 0, [], [], none⟩)
        ((splitLines "data: A".toList).map Except.ok) =
      [Except.ok ⟨none, [], 0, [], [], none⟩] := by
  constructor <;> rfl
